import Mathlib

/-!
Shallow embedding of the trade-analysis pipeline: `src/transformers.py`,
`src/analysis.py`, and `scripts/process_monthly_data.py`.

Numeric values are modelled as rationals.  Where a claim depends on IEEE
non-finite results (NaN, ±inf) those are modelled explicitly, either as
`Option ℚ` (with `none` standing for a non-finite entry) or, for the HHI
computation, as the four-valued type `RVal` below.
-/

namespace TradeAnalysis

/-- A trade record: one row of the annual dataset
(`country`, `year`, `trade_type`, `value`). -/
structure Row where
  country : String
  year : ℤ
  tradeType : String
  value : ℚ
deriving DecidableEq

/-- The total value of the `(year, trade_type)` partition, as computed by
`df.groupby([year_col, trade_type_col])[value_col].transform("sum")` in
`calculate_country_shares` (transformers.py line 39). -/
def partitionTotal (df : List Row) (y : ℤ) (tt : String) : ℚ :=
  ((df.filter (fun r => decide (r.year = y ∧ r.tradeType = tt))).map Row.value).sum

/-- `transformers.calculate_country_shares` (lines 31-45): each row gets
`share = value / yearly_total` and `share_pct = share * 100`, the total being
taken over the row's own `(year, trade_type)` partition.  We return each row
paired with its `share_pct`. -/
def calculate_country_shares (df : List Row) : List (Row × ℚ) :=
  df.map (fun r => (r, r.value / partitionTotal df r.year r.tradeType * 100))

lemma sharesFilterSum (df : List Row) (y : ℤ) (tt : String) :
    ∀ l : List Row,
      (((l.map (fun r => (r, r.value / partitionTotal df r.year r.tradeType * 100))).filter
          (fun p => decide (p.1.year = y ∧ p.1.tradeType = tt))).map Prod.snd).sum
        = ((l.filter (fun r => decide (r.year = y ∧ r.tradeType = tt))).map Row.value).sum
            / partitionTotal df y tt * 100 := by
  intro l
  induction l with
  | nil => simp
  | cons r l ih =>
    simp only [List.map_cons, List.filter_cons]
    by_cases hk : r.year = y ∧ r.tradeType = tt
    · obtain ⟨h1, h2⟩ := hk
      subst h1; subst h2
      rw [if_pos (by simp), if_pos (by simp)]
      simp only [List.map_cons, List.sum_cons, ih]
      ring
    · rw [if_neg (by simpa using hk), if_neg (by simpa using hk), ih]

/-- C1: in every `(year, trade_type)` partition with nonzero total value, the
`share_pct` column produced by `calculate_country_shares` sums to exactly 100
(in the rational model; hence within any floating tolerance), and each row's
`share_pct` is `100 * value / partition total` by construction. -/
theorem c1_shares_sum_to_100 (df : List Row) (y : ℤ) (tt : String)
    (h : partitionTotal df y tt ≠ 0) :
    ((((calculate_country_shares df).filter
        (fun p => decide (p.1.year = y ∧ p.1.tradeType = tt))).map Prod.snd).sum) = 100 := by
  unfold calculate_country_shares
  rw [sharesFilterSum df y tt df]
  have hT : ((df.filter (fun r => decide (r.year = y ∧ r.tradeType = tt))).map Row.value).sum
      = partitionTotal df y tt := rfl
  rw [hT, div_self h, one_mul]

/-- Witness for C1 at a concrete two-country dataset. -/
theorem c1_shares_sum_to_100_witness :
    partitionTotal
        [⟨"China", 2020, "import", 3⟩, ⟨"Mexico", 2020, "import", 1⟩] 2020 "import" ≠ 0 ∧
      ((((calculate_country_shares
          [⟨"China", 2020, "import", 3⟩, ⟨"Mexico", 2020, "import", 1⟩]).filter
          (fun p => decide (p.1.year = 2020 ∧ p.1.tradeType = "import"))).map Prod.snd).sum) = 100 :=
  ⟨by norm_num [partitionTotal, List.filter], c1_shares_sum_to_100
    [⟨"China", 2020, "import", 3⟩, ⟨"Mexico", 2020, "import", 1⟩] 2020 "import"
    (by norm_num [partitionTotal, List.filter])⟩

/-- A monthly trade record `(country, year, month, value)`: the long format
produced by the monthly parsers and consumed by `aggregate_monthly_to_annual`. -/
structure MRow where
  country : String
  year : ℤ
  month : ℕ
  value : ℚ
deriving DecidableEq

/-- An annual aggregate row as produced by `aggregate_monthly_to_annual`. -/
structure ARow where
  country : String
  year : ℤ
  value : ℚ
  month_count : ℕ
  last_month : ℕ
  is_ytd : Bool
deriving DecidableEq

/-- The distinct `(country, year)` group keys of a monthly dataset.  (pandas
sorts group keys; the key order produced by `dedup` differs but is immaterial
to every property stated below.) -/
def mkeys (df : List MRow) : List (String × ℤ) :=
  (df.map (fun r => (r.country, r.year))).dedup

/-- The rows of the `(country, year)` group `k`. -/
def mgroup (df : List MRow) (k : String × ℤ) : List MRow :=
  df.filter (fun r => decide ((r.country, r.year) = k))

/-- `transformers.aggregate_monthly_to_annual` (lines 344-358):
`groupby([country, year]).agg(value: sum, month: [count, max])`, then
`is_ytd = month_count < 12`.  pandas `count` counts the group's non-null
month entries, i.e. the number of rows of the group (the parsed long format
has no null months). -/
def aggregate_monthly_to_annual (df : List MRow) : List ARow :=
  (mkeys df).map (fun k =>
    { country := k.1, year := k.2,
      value := ((mgroup df k).map MRow.value).sum,
      month_count := (mgroup df k).length,
      last_month := ((mgroup df k).map MRow.month).foldr max 0,
      is_ytd := decide ((mgroup df k).length < 12) })

lemma le_foldr_max (l : List ℕ) : ∀ m ∈ l, m ≤ l.foldr max 0 := by
  induction l with
  | nil => simp
  | cons a t ih =>
    intro m hm
    rcases List.mem_cons.mp hm with h | h
    · subst h; exact le_max_left _ _
    · exact le_trans (ih m h) (le_max_right _ _)

lemma foldr_max_mem (l : List ℕ) (hl : l ≠ []) : l.foldr max 0 ∈ l := by
  induction l with
  | nil => exact absurd rfl hl
  | cons a t ih =>
    show max a (t.foldr max 0) ∈ a :: t
    by_cases h : t.foldr max 0 ≤ a
    · rw [max_eq_left h]; exact List.mem_cons_self a t
    · rw [max_eq_right (le_of_not_le h)]
      have ht : t ≠ [] := by
        intro h0; subst h0; simp at h
      exact List.mem_cons_of_mem a (ih ht)

/-- C2 counterexample: on an input whose `(country, year)` group contains the
same month twice, `aggregate_monthly_to_annual` reports `month_count = 2`
(pandas `count` counts rows), while the count of distinct months present is 1,
contradicting the claim's "month_count = count of distinct months present". -/
theorem c2_counterexample :
    (aggregate_monthly_to_annual
        [⟨"X", 2024, 3, 1⟩, ⟨"X", 2024, 3, 2⟩]).map ARow.month_count = [2] ∧
      (([⟨"X", 2024, 3, 1⟩, ⟨"X", 2024, 3, 2⟩] : List MRow).map MRow.month).dedup.length = 1 := by
  constructor
  · rfl
  · rfl

/-- C2 (amended): for inputs in which no month repeats inside a
`(country, year)` group (the format the wide-format parsers emit),
`aggregate_monthly_to_annual` returns exactly one row per `(country, year)`
present, with `value` the sum of the group's month values, `month_count` the
number of distinct months present, `last_month` the maximum month index
present, and `is_ytd` true iff `month_count < 12`.  (On inputs with repeated
months, `month_count` counts month rows, not distinct months.) -/
theorem c2_aggregate_monthly (df : List MRow)
    (hm : ∀ k, ((mgroup df k).map MRow.month).Nodup) :
    ((aggregate_monthly_to_annual df).map (fun a => (a.country, a.year)) = mkeys df
      ∧ (mkeys df).Nodup) ∧
    ∀ a ∈ aggregate_monthly_to_annual df,
      a.value = ((mgroup df (a.country, a.year)).map MRow.value).sum ∧
      a.month_count = ((mgroup df (a.country, a.year)).map MRow.month).dedup.length ∧
      (∀ m ∈ (mgroup df (a.country, a.year)).map MRow.month, m ≤ a.last_month) ∧
      a.last_month ∈ (mgroup df (a.country, a.year)).map MRow.month ∧
      (a.is_ytd = true ↔ a.month_count < 12) := by
  refine ⟨⟨?_, List.nodup_dedup _⟩, ?_⟩
  · unfold aggregate_monthly_to_annual
    rw [List.map_map]
    show (mkeys df).map (fun k => k) = mkeys df
    exact List.map_id _
  · intro a ha
    obtain ⟨k, hk, rfl⟩ := List.mem_map.mp ha
    have hgrp : ∃ r ∈ df, (r.country, r.year) = k := by
      have := List.mem_dedup.mp hk
      simpa using this
    obtain ⟨r, hr, hrk⟩ := hgrp
    have hrg : r ∈ mgroup df k := List.mem_filter.mpr ⟨hr, by simp [hrk]⟩
    have hne : (mgroup df k).map MRow.month ≠ [] := by
      intro h0
      have hmem := List.mem_map_of_mem MRow.month hrg
      rw [h0] at hmem
      simp at hmem
    refine ⟨rfl, ?_, ?_, ?_, ?_⟩
    · show (mgroup df k).length = ((mgroup df k).map MRow.month).dedup.length
      rw [List.Nodup.dedup (hm k), List.length_map]
    · show ∀ m ∈ (mgroup df k).map MRow.month,
        m ≤ ((mgroup df k).map MRow.month).foldr max 0
      exact le_foldr_max _
    · exact foldr_max_mem _ hne
    · simp

/-- The seven-month single-country input used to witness C2. -/
def mdf7 : List MRow :=
  [⟨"X", 2025, 1, 1⟩, ⟨"X", 2025, 2, 1⟩, ⟨"X", 2025, 3, 1⟩, ⟨"X", 2025, 4, 1⟩,
   ⟨"X", 2025, 5, 1⟩, ⟨"X", 2025, 6, 1⟩, ⟨"X", 2025, 7, 1⟩]

/-- Witness for C2 at a concrete input with exactly 7 distinct months: the
general theorem applies (one output row per present key), and the aggregate
row shows `month_count = 7`, `last_month = 7`, `is_ytd = true`. -/
theorem c2_aggregate_monthly_witness :
    (aggregate_monthly_to_annual mdf7).map (fun a => (a.country, a.year))
        = mkeys mdf7 ∧
      (aggregate_monthly_to_annual mdf7).map
        (fun a => (a.month_count, a.last_month, a.is_ytd)) = [(7, 7, true)] := by
  have hm : ∀ k, ((mgroup mdf7 k).map MRow.month).Nodup := fun k =>
    List.Nodup.sublist (List.Sublist.map MRow.month (List.filter_sublist mdf7)) (by decide)
  exact ⟨(c2_aggregate_monthly mdf7 hm).1.1, rfl⟩

/-- The tail of the shifted year-over-year computation: `pv` is the previous
row's value in the sorted series. -/
def yoyGo (pv : ℚ) : List (ℤ × ℚ) → List (ℤ × Option ℚ)
  | [] => []
  | (y, v) :: rest =>
      (y, if pv = 0 then none else some ((v - pv) / pv * 100)) :: yoyGo v rest

/-- `transformers.calculate_yoy_growth` (lines 68-84), restricted to one
`(country, trade_type)` series sorted ascending by year — the state in which
`groupby(group_cols)[value_col].shift(1)` sees each group after
`sort_values([country_col, year_col])`.  Each output row pairs the year with
its `yoy_growth_pct`; `none` models a non-finite or absent entry (the NaN that
`shift` puts on the first row, or the non-finite quotient when the previous
value is 0). -/
def calculate_yoy_growth (series : List (ℤ × ℚ)) : List (ℤ × Option ℚ) :=
  match series with
  | [] => []
  | (y, v) :: rest => (y, none) :: yoyGo v rest

lemma yoyGo_map_fst (pv : ℚ) (l : List (ℤ × ℚ)) :
    (yoyGo pv l).map Prod.fst = l.map Prod.fst := by
  induction l generalizing pv with
  | nil => rfl
  | cons a t ih =>
    obtain ⟨y, v⟩ := a
    simp [yoyGo, ih]

lemma yoyGo_getElem (l : List (ℤ × ℚ)) :
    ∀ (pv : ℚ) (i : ℕ) (y1 : ℤ) (v1 : ℚ) (y2 : ℤ) (v2 : ℚ),
      l[i]? = some (y1, v1) → l[i + 1]? = some (y2, v2) →
      (yoyGo pv l)[i + 1]? = some (y2, if v1 = 0 then none
        else some ((v2 - v1) / v1 * 100)) := by
  induction l with
  | nil =>
    intro pv i y1 v1 y2 v2 h1 _
    simp at h1
  | cons a t ih =>
    intro pv i y1 v1 y2 v2 h1 h2
    obtain ⟨ay, av⟩ := a
    cases i with
    | zero =>
      rw [List.getElem?_cons_zero] at h1
      have hav : (ay, av) = (y1, v1) := Option.some.inj h1
      rw [List.getElem?_cons_succ] at h2
      show ((ay, if pv = 0 then none else some ((av - pv) / pv * 100))
          :: yoyGo av t)[0 + 1]? = _
      rw [List.getElem?_cons_succ]
      cases t with
      | nil => simp at h2
      | cons b u =>
        rw [List.getElem?_cons_zero] at h2
        obtain ⟨by1, bv⟩ := b
        have hb : (by1, bv) = (y2, v2) := Option.some.inj h2
        rw [show av = v1 from congrArg Prod.snd hav,
          show by1 = y2 from congrArg Prod.fst hb,
          show bv = v2 from congrArg Prod.snd hb]
        simp [yoyGo]
    | succ n =>
      rw [List.getElem?_cons_succ] at h1 h2
      show ((ay, if pv = 0 then none else some ((av - pv) / pv * 100))
          :: yoyGo av t)[n + 1 + 1]? = _
      rw [List.getElem?_cons_succ]
      exact ih av n y1 v1 y2 v2 h1 h2

/-- C3 counterexample: the series with years 2000 and 2002 (a gap at 2001).
`calculate_yoy_growth` emits the value 100 at year 2002 even though year 2001
is absent from the series, contradicting the claim that no value is emitted
when the immediately prior calendar year is missing.  The growth emitted is
relative to the previous row (year 2000), not to year 2001. -/
theorem c3_counterexample :
    calculate_yoy_growth [(2000, 100), (2002, 200)]
        = [(2000, none), (2002, some 100)] ∧
      (2001 : ℤ) ∉ ([(2000, 100), (2002, 200)] : List (ℤ × ℚ)).map Prod.fst := by
  constructor
  · show (2000, (none : Option ℚ)) ::
        (2002, if (100 : ℚ) = 0 then none else some ((200 - 100) / 100 * 100))
        :: [] = _
    norm_num
  · decide

/-- C3 (amended): on a `(country, trade_type)` series sorted ascending by
year, `calculate_yoy_growth` preserves the years, emits no growth value for
the first row of the series, and for every later row emits the growth relative
to the immediately preceding row of the series — the latest earlier year
present, which is year − 1 only when the series has no gap there — namely
`100 * (value[i+1] - value[i]) / value[i]`, non-finite (`none`) when the
preceding value is 0. -/
theorem c3_yoy_growth (series : List (ℤ × ℚ)) :
    ((calculate_yoy_growth series).map Prod.fst = series.map Prod.fst) ∧
    (∀ y v rest, series = (y, v) :: rest →
      (calculate_yoy_growth series).head? = some (y, none)) ∧
    (∀ (i : ℕ) (y1 : ℤ) (v1 : ℚ) (y2 : ℤ) (v2 : ℚ),
      series[i]? = some (y1, v1) → series[i + 1]? = some (y2, v2) →
      (calculate_yoy_growth series)[i + 1]? = some (y2, if v1 = 0 then none
        else some ((v2 - v1) / v1 * 100))) := by
  refine ⟨?_, ?_, ?_⟩
  · cases series with
    | nil => rfl
    | cons a t =>
      obtain ⟨y, v⟩ := a
      simp [calculate_yoy_growth, yoyGo_map_fst]
  · intro y v rest hs
    subst hs
    rfl
  · intro i y1 v1 y2 v2 h1 h2
    cases series with
    | nil => simp at h1
    | cons a t =>
      obtain ⟨ay, av⟩ := a
      cases i with
      | zero =>
        rw [List.getElem?_cons_zero] at h1
        have hav : (ay, av) = (y1, v1) := Option.some.inj h1
        rw [List.getElem?_cons_succ] at h2
        show ((ay, (none : Option ℚ)) :: yoyGo av t)[0 + 1]? = _
        rw [List.getElem?_cons_succ]
        cases t with
        | nil => simp at h2
        | cons b u =>
          rw [List.getElem?_cons_zero] at h2
          obtain ⟨by1, bv⟩ := b
          have hb : (by1, bv) = (y2, v2) := Option.some.inj h2
          rw [show av = v1 from congrArg Prod.snd hav,
            show by1 = y2 from congrArg Prod.fst hb,
            show bv = v2 from congrArg Prod.snd hb]
          simp [yoyGo]
      | succ n =>
        rw [List.getElem?_cons_succ] at h1 h2
        show ((ay, (none : Option ℚ)) :: yoyGo av t)[n + 1 + 1]? = _
        rw [List.getElem?_cons_succ]
        exact yoyGo_getElem t av n y1 v1 y2 v2 h1 h2

/-- Witness for C3 on the concrete gap-free series (2000, 100), (2001, 110):
the first row emits no value and the second emits 10 percent. -/
theorem c3_yoy_growth_witness :
    (calculate_yoy_growth [(2000, 100), (2001, 110)]).head? = some (2000, none) ∧
    (calculate_yoy_growth [(2000, 100), (2001, 110)])[1]? = some (2001, some 10) := by
  refine ⟨(c3_yoy_growth [(2000, 100), (2001, 110)]).2.1 2000 100 [(2001, 110)] rfl, ?_⟩
  have h := (c3_yoy_growth [(2000, 100), (2001, 110)]).2.2 0 2000 100 2001 110 rfl rfl
  rw [h]
  norm_num

/-- A merged-dataset row carrying the YTD bookkeeping columns — the common
shape (`common_cols`) of the monthly-derived annual data and the backfilled
historical rows in `scripts/process_monthly_data.py`. -/
structure GRow where
  country : String
  year : ℤ
  value : ℚ
  tradeType : String
  is_ytd : Bool
  month_count : ℕ
  last_month : ℕ
deriving DecidableEq

/-- Minimum of a list of years.  The empty case is outside the modelled domain
(Python's `min` raises there); every theorem about `merge_data` assumes the
monthly-derived data is nonempty. -/
def minYears (l : List ℤ) : ℤ :=
  match l with
  | [] => 0
  | a :: t => t.foldr min a

/-- `merge_data` (scripts/process_monthly_data.py lines 120-161):
`historical_cutoff = min(monthly years) - 1`; historical rows are filtered to
`year <= historical_cutoff` AND `trade_type == "import"`, backfilled with
`is_ytd=False, month_count=12, last_month=12`, then concatenated with all
monthly-derived rows. -/
def merge_data (historical : List Row) (monthly : List GRow) : List GRow :=
  let cutoff := minYears (monthly.map GRow.year) - 1
  ((historical.filter (fun r => decide (r.year ≤ cutoff ∧ r.tradeType = "import"))).map
    (fun r => { country := r.country, year := r.year, value := r.value,
                tradeType := r.tradeType, is_ytd := false,
                month_count := 12, last_month := 12 })) ++ monthly

/-- C4 counterexample: a historical row of trade type "export" whose year 2000
is at or below the cutoff 2023 is nevertheless dropped by `merge_data` (the
code also filters `trade_type == "import"`), contradicting the claim that
every historical row with `year <= historical_cutoff` is kept. -/
theorem c4_counterexample :
    (2000 : ℤ) ≤ minYears (([⟨"B", 2024, 10, "import", false, 12, 12⟩] :
        List GRow).map GRow.year) - 1 ∧
      merge_data [⟨"A", 2000, "export", 5⟩] [⟨"B", 2024, 10, "import", false, 12, 12⟩]
        = [⟨"B", 2024, 10, "import", false, 12, 12⟩] := by
  constructor
  · decide
  · rfl

/-- C4 (amended): with `historical_cutoff = min(year in new data) - 1`,
`merge_data` keeps every historical row whose `year <= historical_cutoff` AND
whose trade type is "import" (non-import historical rows are dropped),
backfilled with `is_ytd=false, month_count=12, last_month=12`; it includes
every monthly-derived row; and every merged row either comes from the monthly
data or has `year < min(year in new data)` with the backfilled bookkeeping
fields — in particular zero historical rows at or after the new data's
minimum year survive. -/
theorem c4_merge_data (historical : List Row) (monthly : List GRow)
    (_hne : monthly ≠ []) :
    (∀ r ∈ historical,
        r.year ≤ minYears (monthly.map GRow.year) - 1 → r.tradeType = "import" →
        ({ country := r.country, year := r.year, value := r.value,
           tradeType := r.tradeType, is_ytd := false,
           month_count := 12, last_month := 12 } : GRow)
          ∈ merge_data historical monthly) ∧
    (∀ g ∈ merge_data historical monthly,
        g ∈ monthly ∨
          (g.year < minYears (monthly.map GRow.year) ∧ g.is_ytd = false ∧
            g.month_count = 12 ∧ g.last_month = 12)) ∧
    (∀ g ∈ monthly, g ∈ merge_data historical monthly) := by
  refine ⟨?_, ?_, ?_⟩
  · intro r hr hy htt
    apply List.mem_append_left
    exact List.mem_map_of_mem _ (List.mem_filter.mpr ⟨hr, by simp [hy, htt]⟩)
  · intro g hg
    rcases List.mem_append.mp hg with hleft | hright
    · right
      obtain ⟨r, hrf, rfl⟩ := List.mem_map.mp hleft
      have hcond := (List.mem_filter.mp hrf).2
      have hy : r.year ≤ minYears (monthly.map GRow.year) - 1 :=
        (of_decide_eq_true hcond).1
      refine ⟨?_, rfl, rfl, rfl⟩
      show r.year < minYears (monthly.map GRow.year)
      omega
    · exact Or.inl hright
  · intro g hg
    exact List.mem_append_right _ hg

/-- Witness for C4: a concrete historical import row below the cutoff is kept
(backfilled), and the concrete monthly row is included. -/
theorem c4_merge_data_witness :
    ({ country := "C", year := 2000, value := 7, tradeType := "import",
       is_ytd := false, month_count := 12, last_month := 12 } : GRow)
        ∈ merge_data [⟨"C", 2000, "import", 7⟩]
            [⟨"C", 2024, 9, "import", false, 12, 12⟩] ∧
      (⟨"C", 2024, 9, "import", false, 12, 12⟩ : GRow)
        ∈ merge_data [⟨"C", 2000, "import", 7⟩]
            [⟨"C", 2024, 9, "import", false, 12, 12⟩] := by
  have h := c4_merge_data [⟨"C", 2000, "import", 7⟩]
    [⟨"C", 2024, 9, "import", false, 12, 12⟩] (by simp)
  exact ⟨h.1 ⟨"C", 2000, "import", 7⟩ (List.mem_singleton.mpr rfl) (by decide) rfl,
    h.2.2 ⟨"C", 2024, 9, "import", false, 12, 12⟩ (List.mem_singleton.mpr rfl)⟩

/-- A `(year, value)` row of the dataset handed to the inflation adjuster. -/
structure VRow where
  year : ℤ
  value : ℚ
deriving DecidableEq

/-- An inflation-adjusted row; `value_real = none` models a non-finite
(NaN/inf) float entry. -/
structure VRowReal where
  year : ℤ
  value : ℚ
  value_real : Option ℚ
deriving DecidableEq

/-- The year-to-deflator mapping built by
`deflator_df.set_index("year")["deflator"].to_dict()`; on duplicate years the
later table row wins, as in a Python dict built from the index. -/
def deflatorLookup (tbl : List (ℤ × ℚ)) (y : ℤ) : Option ℚ :=
  tbl.reverse.lookup y

/-- `transformers.adjust_for_inflation` (lines 138-153):
`base_deflator = deflator_map.get(base_year, 100)` and
`value_real = value * (base_deflator / deflator[year])`.  `value_real` is
non-finite (`none`) when the row's year is absent from the table (NaN
deflator) or when its deflator is 0 (float division by zero); rows are mapped
in place, never dropped, and the function is total (no exception). -/
def adjust_for_inflation (df : List VRow) (tbl : List (ℤ × ℚ)) (base_year : ℤ) :
    List VRowReal :=
  let base := (deflatorLookup tbl base_year).getD 100
  df.map (fun r =>
    { year := r.year, value := r.value,
      value_real := match deflatorLookup tbl r.year with
        | none => none
        | some d => if d = 0 then none else some (r.value * (base / d)) })

/-- C5: `adjust_for_inflation` keeps every row in place (same years and
nominal values, none dropped, no exception); a row whose year has a (nonzero)
deflator `d` gets `value_real = value * (deflator[base_year] / d)`; a row
whose year is absent from the table gets a non-finite `value_real`; and when
the base year itself is absent the base deflator defaults to 100. -/
theorem c5_adjust_for_inflation (df : List VRow) (tbl : List (ℤ × ℚ))
    (base_year : ℤ) :
    ((adjust_for_inflation df tbl base_year).map (fun r => (r.year, r.value))
        = df.map (fun r => (r.year, r.value))) ∧
    (∀ (i : ℕ) (r : VRow), df[i]? = some r →
      ((deflatorLookup tbl r.year = none →
          (adjust_for_inflation df tbl base_year)[i]?
            = some ⟨r.year, r.value, none⟩) ∧
        (∀ d, deflatorLookup tbl r.year = some d → d ≠ 0 →
          (adjust_for_inflation df tbl base_year)[i]?
            = some ⟨r.year, r.value,
                some (r.value * ((deflatorLookup tbl base_year).getD 100 / d))⟩))) ∧
    (deflatorLookup tbl base_year = none →
      ∀ (i : ℕ) (r : VRow) (d : ℚ), df[i]? = some r →
        deflatorLookup tbl r.year = some d → d ≠ 0 →
        (adjust_for_inflation df tbl base_year)[i]?
          = some ⟨r.year, r.value, some (r.value * (100 / d))⟩) := by
  refine ⟨?_, ?_, ?_⟩
  · unfold adjust_for_inflation
    rw [List.map_map]
    rfl
  · intro i r hi
    constructor
    · intro hnone
      unfold adjust_for_inflation
      rw [List.getElem?_map, hi]
      simp [hnone]
    · intro d hd hdne
      unfold adjust_for_inflation
      rw [List.getElem?_map, hi]
      simp [hd, hdne]
  · intro hbase i r d hi hd hdne
    unfold adjust_for_inflation
    rw [List.getElem?_map, hi]
    simp [hbase, hd, hdne]

/-- Witness for C5 on a concrete table missing year 1990: the present year
2021 is adjusted by the formula, the absent year yields a non-finite entry,
and no row is dropped. -/
theorem c5_adjust_for_inflation_witness :
    ((adjust_for_inflation [⟨2021, 11⟩, ⟨1990, 5⟩] [(2020, 100), (2021, 110)] 2020).map
        (fun r => (r.year, r.value))
      = ([⟨2021, 11⟩, ⟨1990, 5⟩] : List VRow).map (fun r => (r.year, r.value))) ∧
    (adjust_for_inflation [⟨2021, 11⟩, ⟨1990, 5⟩] [(2020, 100), (2021, 110)] 2020)[0]?
      = some ⟨2021, 11, some (11 * (100 / 110))⟩ ∧
    (adjust_for_inflation [⟨2021, 11⟩, ⟨1990, 5⟩] [(2020, 100), (2021, 110)] 2020)[1]?
      = some ⟨1990, 5, none⟩ := by
  have h := c5_adjust_for_inflation [⟨2021, 11⟩, ⟨1990, 5⟩] [(2020, 100), (2021, 110)] 2020
  refine ⟨h.1, ?_, ((h.2.1 1 ⟨1990, 5⟩ rfl).1 (by rfl))⟩
  have h0 := (h.2.1 0 ⟨2021, 11⟩ rfl).2 110 (by rfl) (by norm_num)
  exact h0


/-- A four-valued model of the IEEE float results the HHI computation can
produce: a finite rational, +inf, -inf, or NaN. -/
inductive RVal where
  | fin (q : ℚ)
  | pinf
  | ninf
  | nan
deriving DecidableEq

/-- Float division `a / b` of finite values, following numpy: division by
zero gives NaN for 0/0 and ±inf otherwise. -/
def fdiv (a b : ℚ) : RVal :=
  if b = 0 then (if a = 0 then .nan else if 0 < a then .pinf else .ninf)
  else .fin (a / b)

/-- `(share * 100) ** 2` on a possibly non-finite share: the square of an
infinity is +inf, NaN propagates. -/
def sq100 : RVal → RVal
  | .fin q => .fin ((q * 100) ^ 2)
  | .nan => .nan
  | _ => .pinf

/-- The finite entries of a list of float values. -/
def finsOf (l : List RVal) : List ℚ :=
  l.filterMap (fun r => match r with | .fin q => some q | _ => none)

/-- pandas `GroupBy.sum` with its default `skipna=True`: NaN entries count as
0, a remaining infinity dominates, and opposite infinities would give NaN. -/
def nansum (l : List RVal) : RVal :=
  if RVal.pinf ∈ l ∧ RVal.ninf ∈ l then .nan
  else if RVal.pinf ∈ l then .pinf
  else if RVal.ninf ∈ l then .ninf
  else .fin (finsOf l).sum

/-- The HHI of one `(year, trade_type)` group with value column `vs`
(analysis.py lines 44-54): `share = value / total` with the group's own
total, `share_squared = (share * 100) ** 2`, summed over the group. -/
def hhiOfGroup (vs : List ℚ) : RVal :=
  nansum (vs.map (fun v => sq100 (fdiv v vs.sum)))

/-- Float comparison `h < c`: false when `h` is NaN or +inf, true for -inf. -/
def rltc (r : RVal) (c : ℚ) : Bool :=
  match r with
  | .fin q => decide (q < c)
  | .ninf => true
  | _ => false

/-- `categorize_hhi` (analysis.py lines 58-64). -/
def categorize_hhi (h : RVal) : String :=
  if rltc h 1500 then "Unconcentrated"
  else if rltc h 2500 then "Moderate"
  else "Concentrated"

/-- The distinct `(year, trade_type)` group keys of the dataset. -/
def hkeys (df : List Row) : List (ℤ × String) :=
  (df.map (fun r => (r.year, r.tradeType))).dedup

/-- The value column of the `(year, trade_type)` group `k`. -/
def hgroupVals (df : List Row) (k : ℤ × String) : List ℚ :=
  (df.filter (fun r => decide ((r.year, r.tradeType) = k))).map Row.value

/-- An output row of `calculate_hhi`. -/
structure HHIRow where
  year : ℤ
  tradeType : String
  hhi : RVal
  concentration : String
deriving DecidableEq

/-- `analysis.calculate_hhi` (lines 39-68): one output row per
`(year, trade_type)` group, carrying the group's HHI and its concentration
label. -/
def calculate_hhi (df : List Row) : List HHIRow :=
  (hkeys df).map (fun k =>
    { year := k.1, tradeType := k.2,
      hhi := hhiOfGroup (hgroupVals df k),
      concentration := categorize_hhi (hhiOfGroup (hgroupVals df k)) })

lemma sum_zero_all_zero (l : List ℚ) (h : ∀ v ∈ l, 0 ≤ v) (hs : l.sum = 0) :
    ∀ v ∈ l, v = 0 :=
  fun _ hv => List.all_zero_of_le_zero_le_of_sum_eq_zero h hs hv

lemma hhiOfGroup_allZero (vs : List ℚ) (h0 : ∀ v ∈ vs, v = 0) :
    hhiOfGroup vs = .fin 0 := by
  have hs : vs.sum = 0 := List.sum_eq_zero h0
  have hmap : ∀ x ∈ vs.map (fun v => sq100 (fdiv v vs.sum)), x = RVal.nan := by
    intro x hx
    obtain ⟨v, hv, rfl⟩ := List.mem_map.mp hx
    rw [h0 v hv, hs]
    rfl
  unfold hhiOfGroup nansum
  rw [if_neg, if_neg, if_neg]
  · have hfins : finsOf (vs.map fun v => sq100 (fdiv v vs.sum)) = [] := by
      rw [finsOf, List.filterMap_eq_nil_iff]
      intro a ha
      rw [hmap a ha]
    rw [hfins]
    rfl
  · intro hmem
    exact absurd (hmap _ hmem) (by simp)
  · intro hmem
    exact absurd (hmap _ hmem) (by simp)
  · intro hmem
    exact absurd (hmap _ hmem.1) (by simp)

lemma finsOf_map_fin (l : List ℚ) (g : ℚ → ℚ) :
    finsOf (l.map (fun v => RVal.fin (g v))) = l.map g := by
  induction l with
  | nil => rfl
  | cons a t ih => simp [finsOf, List.filterMap_cons] at ih ⊢; exact ih

lemma nansum_map_fin (l : List ℚ) (g : ℚ → ℚ) :
    nansum (l.map (fun v => RVal.fin (g v))) = .fin ((l.map g).sum) := by
  have hp : RVal.pinf ∉ l.map (fun v => RVal.fin (g v)) := by
    intro hmem
    obtain ⟨v, _, hv⟩ := List.mem_map.mp hmem
    exact RVal.noConfusion hv
  have hn : RVal.ninf ∉ l.map (fun v => RVal.fin (g v)) := by
    intro hmem
    obtain ⟨v, _, hv⟩ := List.mem_map.mp hmem
    exact RVal.noConfusion hv
  unfold nansum
  rw [if_neg (fun hc => hp hc.1), if_neg hp, if_neg hn, finsOf_map_fin]

lemma map_div_sq (vs : List ℚ) (t : ℚ) :
    (vs.map (fun v => (v / t * 100) ^ 2)).sum
      = (vs.map (fun v => v ^ 2)).sum * (100 / t) ^ 2 := by
  induction vs with
  | nil => simp
  | cons a l ih =>
    simp only [List.map_cons, List.sum_cons, ih]
    ring

lemma hhiOfGroup_posTotal (vs : List ℚ) (ht : vs.sum ≠ 0) :
    hhiOfGroup vs
      = .fin ((vs.map (fun v => v ^ 2)).sum * (100 / vs.sum) ^ 2) := by
  unfold hhiOfGroup
  have hcong : vs.map (fun v => sq100 (fdiv v vs.sum))
      = vs.map (fun v => RVal.fin ((v / vs.sum * 100) ^ 2)) := by
    apply List.map_congr_left
    intro v _
    rw [fdiv, if_neg ht]
    rfl
  rw [hcong, nansum_map_fin, map_div_sq]

lemma sum_sq_le (l : List ℚ) (h : ∀ v ∈ l, 0 ≤ v) :
    (l.map (fun v => v ^ 2)).sum ≤ l.sum ^ 2 := by
  induction l with
  | nil => simp
  | cons a t ih =>
    have ha : 0 ≤ a := h a (List.mem_cons_self a t)
    have htn : ∀ v ∈ t, 0 ≤ v := fun v hv => h v (List.mem_cons_of_mem a hv)
    have hts : 0 ≤ t.sum := List.sum_nonneg htn
    simp only [List.map_cons, List.sum_cons]
    nlinarith [ih htn]

lemma sum_sq_eq_iff (l : List ℚ) (h : ∀ v ∈ l, 0 ≤ v) :
    (l.map (fun v => v ^ 2)).sum = l.sum ^ 2
      ↔ l.countP (fun v => decide (0 < v)) ≤ 1 := by
  induction l with
  | nil => simp
  | cons a t ih =>
    have ha : 0 ≤ a := h a (List.mem_cons_self a t)
    have htn : ∀ v ∈ t, 0 ≤ v := fun v hv => h v (List.mem_cons_of_mem a hv)
    have hts : 0 ≤ t.sum := List.sum_nonneg htn
    have hle := sum_sq_le t htn
    simp only [List.map_cons, List.sum_cons, List.countP_cons]
    by_cases hap : 0 < a
    · have hsplit : a ^ 2 + (t.map (fun v => v ^ 2)).sum = (a + t.sum) ^ 2
          ↔ ((t.map (fun v => v ^ 2)).sum = t.sum ^ 2 ∧ t.sum = 0) := by
        constructor
        · intro heq
          constructor
          · nlinarith
          · nlinarith
        · intro ⟨h1, h2⟩
          rw [h1, h2]
          ring
      rw [hsplit]
      simp only [hap, decide_eq_true_eq, if_pos]
      constructor
      · intro ⟨_, h2⟩
        have hz := sum_zero_all_zero t htn h2
        have : t.countP (fun v => decide (0 < v)) = 0 := by
          rw [List.countP_eq_zero]
          intro v hv
          rw [hz v hv]
          simp
        omega
      · intro hc
        have hc0 : t.countP (fun v => decide (0 < v)) = 0 := by omega
        have hz : ∀ v ∈ t, v = 0 := by
          intro v hv
          have := (List.countP_eq_zero.mp hc0) v hv
          simp at this
          exact le_antisymm this (htn v hv)
        have h2 : t.sum = 0 := List.sum_eq_zero hz
        refine ⟨?_, h2⟩
        rw [h2]
        have : ∀ x ∈ t.map (fun v => v ^ 2), x = 0 := by
          intro x hx
          obtain ⟨v, hv, rfl⟩ := List.mem_map.mp hx
          rw [hz v hv]
          ring
        rw [List.sum_eq_zero this]
        ring
    · have ha0 : a = 0 := le_antisymm (not_lt.mp hap) ha
      subst ha0
      simp only [hap, decide_eq_true_eq, if_neg, not_false_iff]
      rw [show ((0 : ℚ) ^ 2 + (t.map (fun v => v ^ 2)).sum = (0 + t.sum) ^ 2)
          ↔ ((t.map (fun v => v ^ 2)).sum = t.sum ^ 2) by constructor <;> intro hh <;> nlinarith]
      simpa using ih htn

lemma sum_of_single_pos (l : List ℚ) (h : ∀ v ∈ l, 0 ≤ v)
    (hc : l.countP (fun v => decide (0 < v)) = 1) :
    ∃ v ∈ l, 0 < v ∧ l.sum = v := by
  induction l with
  | nil => simp at hc
  | cons a t ih =>
    have ha : 0 ≤ a := h a (List.mem_cons_self a t)
    have htn : ∀ v ∈ t, 0 ≤ v := fun v hv => h v (List.mem_cons_of_mem a hv)
    rw [List.countP_cons] at hc
    by_cases hap : 0 < a
    · simp only [hap, decide_eq_true_eq, if_pos] at hc
      have hc0 : t.countP (fun v => decide (0 < v)) = 0 := by omega
      have hz : ∀ v ∈ t, v = 0 := by
        intro v hv
        have := (List.countP_eq_zero.mp hc0) v hv
        simp at this
        exact le_antisymm this (htn v hv)
      refine ⟨a, List.mem_cons_self a t, hap, ?_⟩
      rw [List.sum_cons, List.sum_eq_zero hz, add_zero]
    · simp only [hap, decide_eq_true_eq, if_neg, not_false_iff] at hc
      have ha0 : a = 0 := le_antisymm (not_lt.mp hap) ha
      obtain ⟨v, hv, hvp, hvs⟩ := ih htn (by omega)
      refine ⟨v, List.mem_cons_of_mem a hv, hvp, ?_⟩
      rw [List.sum_cons, ha0, zero_add, hvs]

lemma hhiOfGroup_spec (vs : List ℚ) (hnn : ∀ v ∈ vs, 0 ≤ v) :
    ∃ q : ℚ, hhiOfGroup vs = .fin q ∧ 0 ≤ q ∧ q ≤ 10000 ∧
      (q = 10000 ↔ vs.countP (fun v => decide (0 < v)) = 1) := by
  by_cases ht : vs.sum = 0
  · refine ⟨0, hhiOfGroup_allZero vs (sum_zero_all_zero vs hnn ht), le_refl 0,
      by norm_num, ?_⟩
    constructor
    · intro h10
      exact absurd h10 (by norm_num)
    · intro hc
      obtain ⟨v, hv, hvp, _⟩ := sum_of_single_pos vs hnn hc
      have hz := sum_zero_all_zero vs hnn ht v hv
      rw [hz] at hvp
      exact absurd hvp (lt_irrefl 0)
  · have hSqnn : 0 ≤ (vs.map (fun v => v ^ 2)).sum := by
      apply List.sum_nonneg
      intro x hx
      obtain ⟨v, _, rfl⟩ := List.mem_map.mp hx
      exact sq_nonneg v
    have hfacnn : (0 : ℚ) ≤ (100 / vs.sum) ^ 2 := sq_nonneg _
    have hfacpos : (0 : ℚ) < (100 / vs.sum) ^ 2 := by
      apply sq_pos_of_ne_zero
      exact div_ne_zero (by norm_num) ht
    have hkey : vs.sum ^ 2 * (100 / vs.sum) ^ 2 = 10000 := by
      field_simp
      ring
    refine ⟨(vs.map (fun v => v ^ 2)).sum * (100 / vs.sum) ^ 2,
      hhiOfGroup_posTotal vs ht, mul_nonneg hSqnn hfacnn, ?_, ?_⟩
    · calc (vs.map (fun v => v ^ 2)).sum * (100 / vs.sum) ^ 2
          ≤ vs.sum ^ 2 * (100 / vs.sum) ^ 2 :=
            mul_le_mul_of_nonneg_right (sum_sq_le vs hnn) hfacnn
        _ = 10000 := hkey
    · have hcountpos : 1 ≤ vs.countP (fun v => decide (0 < v)) := by
        by_contra hlt
        have hc0 : vs.countP (fun v => decide (0 < v)) = 0 := by omega
        have hz : ∀ v ∈ vs, v = 0 := by
          intro v hv
          have := (List.countP_eq_zero.mp hc0) v hv
          simp at this
          exact le_antisymm this (hnn v hv)
        exact ht (List.sum_eq_zero hz)
      constructor
      · intro h10
        have hsq : (vs.map (fun v => v ^ 2)).sum = vs.sum ^ 2 := by
          have := h10.trans hkey.symm
          exact mul_right_cancel₀ (ne_of_gt hfacpos) this
        have := (sum_sq_eq_iff vs hnn).mp hsq
        omega
      · intro hc
        have hsq : (vs.map (fun v => v ^ 2)).sum = vs.sum ^ 2 :=
          (sum_sq_eq_iff vs hnn).mpr (by omega)
        rw [hsq, hkey]

/-- C6: on a dataset with all values nonnegative, every `hhi` value produced
by `calculate_hhi` is a finite rational `q` with `0 ≤ q ≤ 10000`, and
`q = 10000` iff exactly one row of the group carries a positive value — that
row's value then equals the whole group total, i.e. exactly one country holds
100% of the group's value. -/
theorem c6_hhi_bounds (df : List Row) (hnn : ∀ r ∈ df, 0 ≤ r.value) :
    ∀ h ∈ calculate_hhi df, ∃ q : ℚ,
      h.hhi = RVal.fin q ∧ 0 ≤ q ∧ q ≤ 10000 ∧
      (q = 10000 ↔
        (hgroupVals df (h.year, h.tradeType)).countP (fun v => decide (0 < v)) = 1) ∧
      ((hgroupVals df (h.year, h.tradeType)).countP (fun v => decide (0 < v)) = 1 →
        ∃ v ∈ hgroupVals df (h.year, h.tradeType), 0 < v ∧
          (hgroupVals df (h.year, h.tradeType)).sum = v) := by
  intro h hh
  obtain ⟨k, _, rfl⟩ := List.mem_map.mp hh
  have hvals : ∀ v ∈ hgroupVals df k, 0 ≤ v := by
    intro v hv
    obtain ⟨r, hr, rfl⟩ := List.mem_map.mp hv
    exact hnn r (List.mem_filter.mp hr).1
  obtain ⟨q, hq, h0, h1, h2⟩ := hhiOfGroup_spec (hgroupVals df k) hvals
  exact ⟨q, hq, h0, h1, h2, fun hc => sum_of_single_pos _ hvals hc⟩

/-- Witness for C6 on a concrete two-country dataset in which exactly one
country holds the whole (positive) total: the theorem applies and forces the
hhi to be exactly the finite value 10000. -/
theorem c6_hhi_bounds_witness :
    (calculate_hhi [⟨"A", 2020, "import", 4⟩, ⟨"B", 2020, "import", 0⟩]).map
        HHIRow.hhi = [RVal.fin 10000] := by
  have hnn : ∀ r ∈ ([⟨"A", 2020, "import", 4⟩, ⟨"B", 2020, "import", 0⟩] : List Row),
      0 ≤ r.value := by
    intro r hr
    rcases List.mem_cons.mp hr with rfl | hr
    · norm_num
    · rcases List.mem_cons.mp hr with rfl | hr
      · norm_num
      · simp at hr
  have hk : hkeys [⟨"A", 2020, "import", 4⟩, ⟨"B", 2020, "import", 0⟩]
      = [(2020, "import")] := rfl
  have hmem : (⟨2020, "import",
      hhiOfGroup (hgroupVals
        [⟨"A", 2020, "import", 4⟩, ⟨"B", 2020, "import", 0⟩] (2020, "import")),
      categorize_hhi (hhiOfGroup (hgroupVals
        [⟨"A", 2020, "import", 4⟩, ⟨"B", 2020, "import", 0⟩] (2020, "import")))⟩ : HHIRow)
      ∈ calculate_hhi [⟨"A", 2020, "import", 4⟩, ⟨"B", 2020, "import", 0⟩] := by
    unfold calculate_hhi
    rw [hk]
    exact List.mem_singleton.mpr rfl
  obtain ⟨q, hq, _, _, hiff, _⟩ :=
    c6_hhi_bounds [⟨"A", 2020, "import", 4⟩, ⟨"B", 2020, "import", 0⟩] hnn _ hmem
  have hcount : (hgroupVals [⟨"A", 2020, "import", 4⟩, ⟨"B", 2020, "import", 0⟩]
      (2020, "import")).countP (fun v => decide (0 < v)) = 1 := by decide
  have hq10 : q = 10000 := hiff.mpr hcount
  unfold calculate_hhi
  rw [hk]
  simp only [List.map_cons, List.map_nil]
  rw [show hhiOfGroup (hgroupVals
      [⟨"A", 2020, "import", 4⟩, ⟨"B", 2020, "import", 0⟩] (2020, "import"))
      = RVal.fin q from hq, hq10]

/-- C10 counterexample: a `(year, trade_type)` group with total value 0 made
of the nonzero values 5 and -5.  The shares are ±inf (not the NaN of 0/0),
their squares are +inf, the group sum is +inf (pandas only skips NaN), so the
group's hhi is +inf and it is classified "Concentrated" — not hhi 0 and
"Unconcentrated" as the claim states for every zero-total group. -/
theorem c10_counterexample :
    (hgroupVals [⟨"A", 2020, "import", 5⟩, ⟨"B", 2020, "import", -5⟩]
        (2020, "import")).sum = 0 ∧
      calculate_hhi [⟨"A", 2020, "import", 5⟩, ⟨"B", 2020, "import", -5⟩]
        = [⟨2020, "import", RVal.pinf, "Concentrated"⟩] := by
  have hg : hgroupVals [⟨"A", 2020, "import", 5⟩, ⟨"B", 2020, "import", -5⟩]
      (2020, "import") = [5, -5] := rfl
  have hs : ([5, -5] : List ℚ).sum = 0 := by norm_num
  have hh : hhiOfGroup [5, -5] = RVal.pinf := by
    unfold hhiOfGroup
    rw [hs]
    decide
  have hcat : categorize_hhi RVal.pinf = "Concentrated" := by decide
  have hk : hkeys [⟨"A", 2020, "import", 5⟩, ⟨"B", 2020, "import", -5⟩]
      = [(2020, "import")] := rfl
  refine ⟨by rw [hg]; exact hs, ?_⟩
  unfold calculate_hhi
  rw [hk]
  simp only [List.map_cons, List.map_nil]
  rw [hg, hh, hcat]

/-- C10 (amended): for every `(year, trade_type)` group all of whose values
are 0 — which, for the nonnegative data this pipeline processes, is exactly
the zero-total groups — `calculate_hhi` does not raise and does not return
NaN for the group: each share is the NaN of 0/0, the NaN squared shares are
skipped by the group sum, the group total is 0, its hhi is exactly 0 (a
finite value), and it is classified "Unconcentrated".  (A zero-total group
with nonzero mixed-sign values instead yields shares of ±inf and hhi +inf.) -/
theorem c10_hhi_all_zero_group (df : List Row) :
    ∀ h ∈ calculate_hhi df,
      (∀ v ∈ hgroupVals df (h.year, h.tradeType), v = 0) →
      (hgroupVals df (h.year, h.tradeType)).sum = 0 ∧
        h.hhi = RVal.fin 0 ∧ h.concentration = "Unconcentrated" := by
  intro h hh hz
  obtain ⟨k, _, rfl⟩ := List.mem_map.mp hh
  have h0 : hhiOfGroup (hgroupVals df k) = RVal.fin 0 := hhiOfGroup_allZero _ hz
  refine ⟨List.sum_eq_zero hz, h0, ?_⟩
  show categorize_hhi (hhiOfGroup (hgroupVals df k)) = "Unconcentrated"
  rw [h0]
  decide

/-- Witness for C10 on a concrete all-zero group: the single output row has
hhi exactly 0 and label "Unconcentrated". -/
theorem c10_hhi_all_zero_group_witness :
    calculate_hhi [⟨"A", 2020, "import", 0⟩]
      = [⟨2020, "import", RVal.fin 0, "Unconcentrated"⟩] := by
  have hk : hkeys [⟨"A", 2020, "import", 0⟩] = [(2020, "import")] := rfl
  have hmem : (⟨2020, "import",
      hhiOfGroup (hgroupVals [⟨"A", 2020, "import", 0⟩] (2020, "import")),
      categorize_hhi
        (hhiOfGroup (hgroupVals [⟨"A", 2020, "import", 0⟩] (2020, "import")))⟩ : HHIRow)
      ∈ calculate_hhi [⟨"A", 2020, "import", 0⟩] := by
    unfold calculate_hhi
    rw [hk]
    exact List.mem_singleton.mpr rfl
  have hz : ∀ v ∈ hgroupVals [⟨"A", 2020, "import", 0⟩] (2020, "import"), v = 0 := by
    intro v hv
    have hv0 : v ∈ [(0 : ℚ)] := hv
    simpa using hv0
  obtain ⟨_, hhh, hcc⟩ := c10_hhi_all_zero_group [⟨"A", 2020, "import", 0⟩] _ hmem hz
  unfold calculate_hhi
  rw [hk]
  simp only [List.map_cons, List.map_nil]
  rw [show categorize_hhi
      (hhiOfGroup (hgroupVals [⟨"A", 2020, "import", 0⟩] (2020, "import")))
      = "Unconcentrated" from hcc,
    show hhiOfGroup (hgroupVals [⟨"A", 2020, "import", 0⟩] (2020, "import"))
      = RVal.fin 0 from hhh]

/-- The centered rolling window of width `w` at position `i` of a series, as
pandas `rolling(window=w, center=True)` with its default `min_periods = w`
sees it: defined only when all `w` points fit inside the series (for `w = 5`
the window at `i` covers positions `i-2 .. i+2`; for even `w` the label sits
right of center, matching the pandas shift by `w / 2`). -/
def centeredWindow (vs : List ℚ) (w i : ℕ) : Option (List ℚ) :=
  if w ≤ i + 1 + w / 2 ∧ i + w / 2 < vs.length ∧ 0 < w then
    some ((vs.drop (i + 1 + w / 2 - w)).take w)
  else none

/-- `analysis.detect_structural_breaks` (lines 90-99): flag position `i` when
`|value - rolling_mean| / rolling_std > threshold`, with centered rolling
mean and sample (ddof = 1) standard deviation over `window` points.  The
float comparison is expressed with squares to stay in ℚ: for `std > 0` and
`threshold ≥ 0`, `|z| > threshold` iff
`(value - mean)^2 > threshold^2 * variance`; an incomplete window or
`window = 1` gives a NaN z-score which never compares true; zero variance
under a centered window forces `value = mean`, hence `z = 0/0 = NaN`, also
never true; and a negative threshold is exceeded by every defined,
nonzero-variance z-score. -/
def detect_structural_breaks (vs : List ℚ) (window : ℕ) (threshold : ℚ) :
    List ℕ :=
  (List.range vs.length).filter (fun i =>
    match centeredWindow vs window i with
    | none => false
    | some g =>
      let m := g.sum / g.length
      let sv := (g.map (fun x => (x - m) ^ 2)).sum / ((g.length : ℚ) - 1)
      decide (2 ≤ window) && decide (sv ≠ 0) &&
        (decide (threshold < 0) ||
          decide (threshold ^ 2 * sv < (vs.getD i 0 - m) ^ 2)))

/-- C9: `detect_structural_breaks` never flags a position whose centered
rolling window is incomplete (undefined rolling mean/std); in particular,
with `window = 5` on any 6-point series only positions 2 and 3 can ever be
flagged — the first two and last two positions are never breaks, regardless
of their magnitude. -/
theorem c9_breaks_need_full_window (vs : List ℚ) (window : ℕ) (threshold : ℚ) :
    (∀ i ∈ detect_structural_breaks vs window threshold,
      (centeredWindow vs window i).isSome) ∧
    (vs.length = 6 → ∀ i ∈ detect_structural_breaks vs 5 threshold,
      2 ≤ i ∧ i ≤ 3) := by
  have hpart : ∀ (w : ℕ) (i : ℕ), i ∈ detect_structural_breaks vs w threshold →
      (centeredWindow vs w i).isSome := by
    intro w i hi
    have hp := (List.mem_filter.mp hi).2
    simp only at hp
    cases hw : centeredWindow vs w i with
    | none =>
      rw [hw] at hp
      simp at hp
    | some g => rfl
  refine ⟨hpart window, ?_⟩
  intro h6 i hi
  have hs := hpart 5 i hi
  rw [centeredWindow] at hs
  split_ifs at hs with hc
  · rw [h6] at hc
    omega
  · simp at hs

/-- Witness for C9 on a concrete 6-point series with an extreme interior
value: none of the two first or two last positions is flagged. -/
theorem c9_breaks_need_full_window_witness :
    0 ∉ detect_structural_breaks [0, 0, 0, 1000, 0, 0] 5 2 ∧
      1 ∉ detect_structural_breaks [0, 0, 0, 1000, 0, 0] 5 2 ∧
      4 ∉ detect_structural_breaks [0, 0, 0, 1000, 0, 0] 5 2 ∧
      5 ∉ detect_structural_breaks [0, 0, 0, 1000, 0, 0] 5 2 := by
  have h := (c9_breaks_need_full_window [0, 0, 0, 1000, 0, 0] 5 2).2 (by rfl)
  exact ⟨fun h0 => by have := h 0 h0; omega, fun h1 => by have := h 1 h1; omega,
    fun h4 => by have := h 4 h4; omega, fun h5 => by have := h 5 h5; omega⟩

/-- A row `(country, year, value)` of the dataset given to the shift
analyzer. -/
structure YRow where
  country : String
  year : ℤ
  value : ℚ
deriving DecidableEq

/-- The `(country, value)` pairs of the given year
(`df[df[year_col] == year]`). -/
def yearRows (df : List YRow) (y : ℤ) : List (String × ℚ) :=
  (df.filter (fun r => decide (r.year = y))).map (fun r => (r.country, r.value))

/-- One row of the shift-analysis comparison table. -/
structure CompRow where
  country : String
  value_start : ℚ
  value_end : ℚ
  share_start : ℚ
  share_end : ℚ
  rank_start : ℕ
  rank_end : ℕ
  rank_change : ℤ
deriving DecidableEq

/-- The keys of a pandas outer merge on country: the left table's countries
in order, then the right table's countries not present on the left. -/
def outerCountries (s e : List (String × ℚ)) : List String :=
  s.map Prod.fst ++ (e.map Prod.fst).filter (fun c => decide (c ∉ s.map Prod.fst))

/-- A merged-column entry after `fillna(0)`: the year's value for a present
country, 0 for a country absent from that year. -/
def joinValue (t : List (String × ℚ)) (c : String) : ℚ :=
  (t.lookup c).getD 0

/-- A merged share column after `fillna(0)`: a present country's
`value / that year's own total * 100`, and 0 for an absent country (its NaN
share is filled with 0). -/
def joinShare (t : List (String × ℚ)) (c : String) : ℚ :=
  match t.lookup c with
  | some v => v / (t.map Prod.snd).sum * 100
  | none => 0

/-- pandas `rank(ascending=False, method="min")`: the rank of `v` within
`vals` is 1 plus the number of entries strictly greater than `v`, so tied
values all receive the same, lowest applicable rank. -/
def minRank (v : ℚ) (vals : List ℚ) : ℕ :=
  1 + vals.countP (fun w => decide (v < w))

/-- `analysis.analyze_country_shifts` (lines 102-213), the comparison table:
per-year shares from each year's own total, an outer merge on country with
`fillna(0)`, descending "min"-method ranks over the merged value columns, and
`rank_change = rank_start - rank_end`.  (The later sorting and top-N
selections of the returned dictionary do not alter these per-country fields
and are not modelled.) -/
def analyze_country_shifts (df : List YRow) (start_year end_year : ℤ) :
    List CompRow :=
  let s := yearRows df start_year
  let e := yearRows df end_year
  let cs := outerCountries s e
  cs.map (fun c =>
    { country := c,
      value_start := joinValue s c, value_end := joinValue e c,
      share_start := joinShare s c, share_end := joinShare e c,
      rank_start := minRank (joinValue s c) (cs.map (joinValue s)),
      rank_end := minRank (joinValue e c) (cs.map (joinValue e)),
      rank_change := (minRank (joinValue s c) (cs.map (joinValue s)) : ℤ)
        - (minRank (joinValue e c) (cs.map (joinValue e)) : ℤ) })

lemma mem_outerCountries (s e : List (String × ℚ)) (c : String) :
    c ∈ outerCountries s e ↔ c ∈ s.map Prod.fst ∨ c ∈ e.map Prod.fst := by
  unfold outerCountries
  rw [List.mem_append]
  constructor
  · rintro (h | h)
    · exact Or.inl h
    · exact Or.inr (List.mem_filter.mp h).1
  · rintro (h | h)
    · exact Or.inl h
    · by_cases hs : c ∈ s.map Prod.fst
      · exact Or.inl hs
      · exact Or.inr (List.mem_filter.mpr ⟨h, by simpa using hs⟩)

/-- The rank-change example dataset: A 500 then 1000, B 1000 then 500,
C 400 then 700. -/
def exDf : List YRow :=
  [⟨"A", 2001, 500⟩, ⟨"B", 2001, 1000⟩, ⟨"C", 2001, 400⟩,
   ⟨"A", 2008, 1000⟩, ⟨"B", 2008, 500⟩, ⟨"C", 2008, 700⟩]

/-- C7: the comparison table of `analyze_country_shifts` contains exactly the
countries present in either endpoint year (an outer join); a country absent
from one year gets value 0 and share 0 there (filled, not dropped) while a
present country keeps its value and the share computed from that year's own
total; each rank is 1 plus the number of strictly greater entries of the
merged value column (the descending "min" method, ties sharing the lowest
rank); `rank_change = rank_start - rank_end`; and on the example data
country A moves rank 2 to rank 1 (`rank_change = +1`) while country B moves
rank 1 to rank 3 (`rank_change = -2`). -/
theorem c7_shift_analysis (df : List YRow) (sy ey : ℤ) :
    ((analyze_country_shifts df sy ey).map CompRow.country
        = outerCountries (yearRows df sy) (yearRows df ey) ∧
      ∀ c, c ∈ outerCountries (yearRows df sy) (yearRows df ey)
        ↔ (c ∈ (yearRows df sy).map Prod.fst
            ∨ c ∈ (yearRows df ey).map Prod.fst)) ∧
    (∀ row ∈ analyze_country_shifts df sy ey,
      ((yearRows df sy).lookup row.country = none →
        row.value_start = 0 ∧ row.share_start = 0) ∧
      (∀ v, (yearRows df sy).lookup row.country = some v →
        row.value_start = v ∧
        row.share_start = v / ((yearRows df sy).map Prod.snd).sum * 100) ∧
      ((yearRows df ey).lookup row.country = none →
        row.value_end = 0 ∧ row.share_end = 0) ∧
      (∀ v, (yearRows df ey).lookup row.country = some v →
        row.value_end = v ∧
        row.share_end = v / ((yearRows df ey).map Prod.snd).sum * 100) ∧
      row.rank_start
        = 1 + ((analyze_country_shifts df sy ey).map CompRow.value_start).countP
            (fun w => decide (row.value_start < w)) ∧
      row.rank_end
        = 1 + ((analyze_country_shifts df sy ey).map CompRow.value_end).countP
            (fun w => decide (row.value_end < w)) ∧
      row.rank_change = (row.rank_start : ℤ) - (row.rank_end : ℤ)) ∧
    (((analyze_country_shifts exDf 2001 2008).find?
        (fun r => r.country == "A")).map
        (fun r => (r.rank_start, r.rank_end, r.rank_change)) = some (2, 1, 1) ∧
      ((analyze_country_shifts exDf 2001 2008).find?
        (fun r => r.country == "B")).map
        (fun r => (r.rank_start, r.rank_end, r.rank_change)) = some (1, 3, -2)) := by
  have hmapS : (analyze_country_shifts df sy ey).map CompRow.value_start
      = (outerCountries (yearRows df sy) (yearRows df ey)).map
          (joinValue (yearRows df sy)) := by
    simp only [analyze_country_shifts]
    rw [List.map_map]
    rfl
  have hmapE : (analyze_country_shifts df sy ey).map CompRow.value_end
      = (outerCountries (yearRows df sy) (yearRows df ey)).map
          (joinValue (yearRows df ey)) := by
    simp only [analyze_country_shifts]
    rw [List.map_map]
    rfl
  refine ⟨⟨?_, fun c => mem_outerCountries _ _ c⟩, ?_, ?_, ?_⟩
  · simp only [analyze_country_shifts]
    rw [List.map_map]
    show (outerCountries (yearRows df sy) (yearRows df ey)).map (fun c => c) = _
    exact List.map_id _
  · intro row hrow
    simp only [analyze_country_shifts] at hrow
    obtain ⟨c, _, rfl⟩ := List.mem_map.mp hrow
    refine ⟨?_, ?_, ?_, ?_, ?_, ?_, rfl⟩
    · intro hnone
      have hn : (yearRows df sy).lookup c = none := hnone
      constructor
      · show joinValue (yearRows df sy) c = 0
        rw [joinValue, hn]
        rfl
      · show joinShare (yearRows df sy) c = 0
        rw [joinShare, hn]
    · intro v hv
      have hv' : (yearRows df sy).lookup c = some v := hv
      constructor
      · show joinValue (yearRows df sy) c = v
        rw [joinValue, hv']
        rfl
      · show joinShare (yearRows df sy) c = _
        rw [joinShare, hv']
    · intro hnone
      have hn : (yearRows df ey).lookup c = none := hnone
      constructor
      · show joinValue (yearRows df ey) c = 0
        rw [joinValue, hn]
        rfl
      · show joinShare (yearRows df ey) c = 0
        rw [joinShare, hn]
    · intro v hv
      have hv' : (yearRows df ey).lookup c = some v := hv
      constructor
      · show joinValue (yearRows df ey) c = v
        rw [joinValue, hv']
        rfl
      · show joinShare (yearRows df ey) c = _
        rw [joinShare, hv']
    · rw [hmapS]
      rfl
    · rw [hmapE]
      rfl
  · rfl
  · rfl

/-- Witness for C7: the theorem applied at the concrete example dataset gives
the outer-join country list and the membership criterion for country A. -/
theorem c7_shift_analysis_witness :
    ((analyze_country_shifts exDf 2001 2008).map CompRow.country
        = outerCountries (yearRows exDf 2001) (yearRows exDf 2008)) ∧
      ("A" ∈ outerCountries (yearRows exDf 2001) (yearRows exDf 2008)
        ↔ ("A" ∈ (yearRows exDf 2001).map Prod.fst
            ∨ "A" ∈ (yearRows exDf 2008).map Prod.fst)) :=
  ⟨(c7_shift_analysis exDf 2001 2008).1.1,
    (c7_shift_analysis exDf 2001 2008).1.2 "A"⟩

/-- Maximum of a list of years; the empty case is outside the modelled
domain (pandas `max` of an empty frame is NaN and the function is only ever
called on a loaded dataset). -/
def maxYears (l : List ℤ) : ℤ :=
  match l with
  | [] => 0
  | a :: t => t.foldr max a

/-- The value of country `c` in year `y` after
`period_df[period_df[year] == y].set_index(country)[value]` is aligned on
country: `none` when the country has no row in that year (NaN after
alignment). -/
def valueIn (df : List YRow) (y : ℤ) (c : String) : Option ℚ :=
  (yearRows df y).lookup c

/-- The growth column of `identify_emerging_partners`:
`(end - start) / start * 100` followed by `.replace([inf, -inf], nan)`.
`none` models every non-finite outcome: absent start or end (NaN after
alignment) and zero start (±inf replaced by NaN, or 0/0 = NaN). -/
def growthPct (df : List YRow) (minY maxY : ℤ) (c : String) : Option ℚ :=
  match valueIn df minY c, valueIn df maxY c with
  | some s, some e => if s = 0 then none else some ((e - s) / s * 100)
  | _, _ => none

/-- The end-year share column: `end_value / end_total * 100`, `none` for a
country absent in the end year.  (A zero end total would give ±inf/NaN in
float, which ℚ cannot express; the theorem below therefore carries a nonzero
end-total hypothesis marking the faithful domain.) -/
def endSharePct (df : List YRow) (maxY : ℤ) (c : String) : Option ℚ :=
  match valueIn df maxY c with
  | some e => some (e / ((yearRows df maxY).map Prod.snd).sum * 100)
  | none => none

/-- The index of the combined emerging-partners frame: every country present
in the start or the end year. -/
def emergingCandidates (df : List YRow) (minY maxY : ℤ) : List String :=
  outerCountries (yearRows df minY) (yearRows df maxY)

/-- `analysis.identify_emerging_partners` (lines 282-313): with
`max_year = max(year)` and `min_year = max_year - lookback_years`, keep the
countries whose growth and end-year share columns are finite and pass both
thresholds; a NaN in either column compares false and excludes the country. -/
def identify_emerging_partners (df : List YRow) (lookback_years : ℤ)
    (growth_threshold min_final_share : ℚ) : List String :=
  let maxY := maxYears (df.map YRow.year)
  let minY := maxY - lookback_years
  (emergingCandidates df minY maxY).filter (fun c =>
    match growthPct df minY maxY c, endSharePct df maxY c with
    | some g, some sh =>
        decide (growth_threshold ≤ g) && decide (min_final_share ≤ sh)
    | _, _ => false)

/-- C8: a country is returned by `identify_emerging_partners` iff its growth
over the lookback window (from `max_year - lookback_years` to `max_year`) is
finite and at least `growth_threshold` AND its final-year share is defined
and at least `min_final_share`; in particular a country whose start-year
value is 0 or that is absent in the start year has non-finite growth, is
excluded from the threshold comparison, and is never returned. -/
theorem c8_emerging_partners (df : List YRow) (lookback_years : ℤ)
    (gthr msh : ℚ)
    (_hT : ((yearRows df (maxYears (df.map YRow.year))).map Prod.snd).sum ≠ 0) :
    (∀ c, c ∈ identify_emerging_partners df lookback_years gthr msh
      ↔ ((∃ g, growthPct df (maxYears (df.map YRow.year) - lookback_years)
            (maxYears (df.map YRow.year)) c = some g ∧ gthr ≤ g) ∧
         (∃ sh, endSharePct df (maxYears (df.map YRow.year)) c = some sh ∧
            msh ≤ sh))) ∧
    (∀ c, (valueIn df (maxYears (df.map YRow.year) - lookback_years) c = some 0
        ∨ valueIn df (maxYears (df.map YRow.year) - lookback_years) c = none) →
      c ∉ identify_emerging_partners df lookback_years gthr msh) := by
  constructor
  · intro c
    constructor
    · intro hc
      simp only [identify_emerging_partners] at hc
      have hp := (List.mem_filter.mp hc).2
      simp only at hp
      cases hg : growthPct df (maxYears (df.map YRow.year) - lookback_years)
          (maxYears (df.map YRow.year)) c with
      | none => rw [hg] at hp; simp at hp
      | some g =>
        cases hsh : endSharePct df (maxYears (df.map YRow.year)) c with
        | none => rw [hg, hsh] at hp; simp at hp
        | some sh =>
          rw [hg, hsh] at hp
          have hb := Bool.and_eq_true_iff.mp hp
          exact ⟨⟨g, rfl, of_decide_eq_true hb.1⟩, ⟨sh, rfl, of_decide_eq_true hb.2⟩⟩
    · rintro ⟨⟨g, hg, hgle⟩, ⟨sh, hsh, hshle⟩⟩
      simp only [identify_emerging_partners]
      apply List.mem_filter.mpr
      constructor
      · cases hs : valueIn df (maxYears (df.map YRow.year) - lookback_years) c with
        | none =>
          rw [growthPct, hs] at hg
          simp at hg
        | some s =>
          obtain ⟨l₁, l₂, hdecomp, _⟩ := List.lookup_eq_some_iff.mp hs
          have hpair : (c, s) ∈ yearRows df (maxYears (df.map YRow.year) - lookback_years) := by
            rw [hdecomp]
            exact List.mem_append_right _ (List.mem_cons_self _ _)
          exact (mem_outerCountries _ _ c).mpr
            (Or.inl (List.mem_map_of_mem Prod.fst hpair))
      · rw [hg, hsh]
        simp [hgle, hshle]
  · intro c h0 hc
    simp only [identify_emerging_partners] at hc
    have hp := (List.mem_filter.mp hc).2
    have hg : growthPct df (maxYears (df.map YRow.year) - lookback_years)
        (maxYears (df.map YRow.year)) c = none := by
      rcases h0 with h0 | h0
      · cases he : valueIn df (maxYears (df.map YRow.year)) c with
        | none => rw [growthPct, h0, he]
        | some e => rw [growthPct, h0, he]; simp
      · rw [growthPct, h0]
    simp only at hp
    rw [hg] at hp
    simp at hp

/-- Witness for C8 on a concrete dataset: country V (10 at the start year,
30 at the end year, growth 200%, well above a 1% share) is returned; country
Z, absent in the start year, is never returned. -/
theorem c8_emerging_partners_witness :
    "V" ∈ identify_emerging_partners
        [⟨"V", 2010, 10⟩, ⟨"W", 2010, 50⟩, ⟨"V", 2020, 30⟩,
         ⟨"W", 2020, 70⟩, ⟨"Z", 2020, 5⟩] 10 100 1 ∧
      "Z" ∉ identify_emerging_partners
        [⟨"V", 2010, 10⟩, ⟨"W", 2010, 50⟩, ⟨"V", 2020, 30⟩,
         ⟨"W", 2020, 70⟩, ⟨"Z", 2020, 5⟩] 10 100 1 := by
  have hT : ((yearRows [⟨"V", 2010, 10⟩, ⟨"W", 2010, 50⟩, ⟨"V", 2020, 30⟩,
      ⟨"W", 2020, 70⟩, ⟨"Z", 2020, 5⟩]
      (maxYears (([⟨"V", 2010, 10⟩, ⟨"W", 2010, 50⟩, ⟨"V", 2020, 30⟩,
        ⟨"W", 2020, 70⟩, ⟨"Z", 2020, 5⟩] : List YRow).map YRow.year))).map
      Prod.snd).sum ≠ 0 := by
    show ((30 : ℚ) + (70 + (5 + 0))) ≠ 0
    norm_num
  have h := c8_emerging_partners
    [⟨"V", 2010, 10⟩, ⟨"W", 2010, 50⟩, ⟨"V", 2020, 30⟩,
     ⟨"W", 2020, 70⟩, ⟨"Z", 2020, 5⟩] 10 100 1 hT
  constructor
  · refine (h.1 "V").mpr ⟨⟨(30 - 10) / 10 * 100, rfl, by norm_num⟩,
      ⟨30 / (30 + (70 + (5 + 0))) * 100, rfl, by norm_num⟩⟩
  · exact h.2 "Z" (Or.inr rfl)

end TradeAnalysis
